import Mathlib

/-!
# Telegram login connector: verification of the assertion verifier

Shallow embedding of `telegram.go` (package `telegram`): the data-check string
built by `verifyTelegramAuth`, the signature comparison, and the request
handling of `ConnectorReceiver` (integer parsing, freshness window, mapping to
the user record).

Go strings are modelled by `String` (texts that are valid UTF-8; the order of
code points is the order of bytes), `int64` values by `Int` (with explicit
two's-complement wrapping where the program computes on them), and the
library functions whose bodies are outside the package are either written out
(`strconv.ParseInt`, `sort.Strings`, `strings.Join`, `hex.EncodeToString`,
`fmt.Sprintf`) or taken as uninterpreted components of `GoRuntime`
(SHA-256, HMAC-SHA256, `json.Marshal`, `strings.TrimSpace`, and the order in
which `range` visits a map).
-/

namespace Telegram

/-! ## Data model -/

/-- A Go `byte`. -/
abbrev Byte := Fin 256

/-- ConnectorConfig holds the plugin settings. -/
structure ConnectorConfig where
  BotToken : String
  BotUsername : String
  RedirectPath : String
deriving DecidableEq

/-- Connector holds the configuration of the Telegram connector. -/
structure Connector where
  Config : ConnectorConfig
deriving DecidableEq

/-- TelegramAuthData is the data returned by the Telegram login widget. -/
structure TelegramAuthData where
  ID : Int
  FirstName : String
  LastName : String
  Username : String
  PhotoURL : String
  AuthDate : Int
  Hash : String
deriving DecidableEq

/-- The record `plugin.ExternalLoginUserInfo`, with the fields the connector fills. -/
structure ExternalLoginUserInfo where
  ExternalID : String
  DisplayName : String
  Username : String
  Email : String
  MetaInfo : String
  Avatar : String
deriving DecidableEq

/-- The zero value of `plugin.ExternalLoginUserInfo` (the named result `userInfo`
before it is assigned). -/
def zeroUserInfo : ExternalLoginUserInfo :=
  { ExternalID := "", DisplayName := "", Username := "", Email := "", MetaInfo := "", Avatar := "" }

/-- The library and runtime components the connector relies on but does not define. -/
structure GoRuntime where
  /-- The order in which `for k := range dataMap` visits the keys of a map holding `ks`. -/
  rangeKeys : List String → List String
  /-- A `range` loop visits every key exactly once. -/
  rangeKeys_perm : ∀ ks, List.Perm (rangeKeys ks) ks
  /-- The function `sha256.Sum256([]byte(s))`. -/
  sha256Sum256 : String → List Byte
  /-- The digest `h.Sum(nil)` of `hmac.New(sha256.New, key)` after `h.Write([]byte(msg))`. -/
  hmacSha256 : List Byte → String → List Byte
  /-- An HMAC-SHA256 tag has 32 bytes. -/
  hmacSha256_length : ∀ key msg, (hmacSha256 key msg).length = 32
  /-- The function `json.Marshal` on the assertion, as a string. -/
  jsonMarshal : TelegramAuthData → String
  /-- The function `strings.TrimSpace`. -/
  trimSpace : String → String

/-! ## Library functions written out -/

/-- Go's `a < b` on strings given as character lists: lexicographic, a proper
initial segment being smaller (code-point order, which for UTF-8 is byte order). -/
def lessChars : List Char → List Char → Bool
  | _, [] => false
  | [], _ :: _ => true
  | a :: as, b :: bs =>
    if a.toNat < b.toNat then true
    else if b.toNat < a.toNat then false
    else lessChars as bs

/-- Go's `a < b` on strings. -/
def stringLess (a b : String) : Bool := lessChars a.data b.data

/-- The inner loop of `insertionSort`: `for j := i; j > a && less(data[j], data[j-1]); j--`
swaps the new element `x` leftwards. The already sorted part is given from right
to left, and is returned the same way. -/
def insertionStep (x : String) : List String → List String
  | [] => [x]
  | y :: left => if stringLess x y then y :: insertionStep x left else x :: y :: left

/-- The function `sort.Strings`: up to 12 elements the library sorts by insertion,
taking the elements from left to right (the map holds at most six keys). -/
def sortStrings (keys : List String) : List String :=
  (keys.foldl (fun left x => insertionStep x left) []).reverse

/-- The function `strings.Join(elems, sep)`. -/
def stringsJoin : List String → String → String
  | [], _ => ""
  | [a], _ => a
  | a :: b :: rest, sep => a ++ sep ++ stringsJoin (b :: rest) sep

/-- The verb `%d` of `fmt.Sprintf` on an `int64`: base 10, a minus sign for negatives. -/
def sprintD : Int → String
  | Int.ofNat m => Nat.repr m
  | Int.negSucc m => "-" ++ Nat.repr (m + 1)

/-- The verb `%v` of `fmt.Sprintf` on a map element of type `interface{}` holding a
string; a missing key yields the nil interface, printed as `<nil>`. -/
def sprintV : Option String → String
  | some s => s
  | none => "<nil>"

/-- The table `hextable` of `encoding/hex`. -/
def hextable : List Char := "0123456789abcdef".data

/-- The function `hex.EncodeToString`: two characters `hextable[v>>4]`, `hextable[v&0x0f]`
per byte. -/
def hexEncodeToString (src : List Byte) : String :=
  String.mk (src.flatMap fun v => [hextable.getD (v.val / 16) '0', hextable.getD (v.val % 16) '0'])

/-- The errors of `strconv`: `ErrSyntax` and `ErrRange`. -/
inductive NumError where
  | ErrSyntax
  | ErrRange
deriving DecidableEq

/-- The constant `maxUint64`. -/
def maxUint64 : Nat := 2 ^ 64 - 1

/-- The helper `lower(c)` of `strconv`: `c | ('x' - 'X')`. -/
def lower (c : Nat) : Nat := c ||| 0x20

/-- The digit loop of `strconv.ParseUint` at base 10 and bit size 64
(`cutoff = maxUint64/10 + 1`, `maxVal = 1<<64 - 1`), with `n` the value read so far.
A character outside ASCII is one or more bytes above `'z'` and is a syntax error
like any other non-digit. -/
def parseUintLoop (cutoff maxVal : Nat) : List Char → Nat → Nat × Option NumError
  | [], n => (n, none)
  | ch :: rest, n =>
    let c := ch.toNat
    let digit : Option Nat :=
      if 48 ≤ c ∧ c ≤ 57 then some (c - 48)
      else if 97 ≤ lower c ∧ lower c ≤ 122 then some (lower c - 97 + 10)
      else none
    match digit with
    | none => (0, some NumError.ErrSyntax)
    | some d =>
      if d ≥ 10 then (0, some NumError.ErrSyntax)
      else if n ≥ cutoff then (maxVal, some NumError.ErrRange)
      else
        let n10 := (n * 10) % 2 ^ 64
        let n1 := (n10 + d) % 2 ^ 64
        if n1 < n10 ∨ n1 > maxVal then (maxVal, some NumError.ErrRange)
        else parseUintLoop cutoff maxVal rest n1

/-- The call `strconv.ParseUint(s, 10, 64)` (underscores are special in base 0 only). -/
def ParseUint (s : String) : Nat × Option NumError :=
  if s = "" then (0, some NumError.ErrSyntax)
  else parseUintLoop (maxUint64 / 10 + 1) (2 ^ 64 - 1) s.data 0

/-- The conversion `int64(un)` of a `uint64`. -/
def toInt64 (un : Nat) : Int :=
  if un < 2 ^ 63 then (un : Int) else (un : Int) - 2 ^ 64

/-- Reduction of an integer to the `int64` it is in two's complement. -/
def wrapInt64 (i : Int) : Int := (i + 2 ^ 63) % 2 ^ 64 - 2 ^ 63

/-- The call `strconv.ParseInt(s, 10, 64)`: value and error. -/
def ParseInt (s : String) : Int × Option NumError :=
  if s = "" then (0, some NumError.ErrSyntax)
  else
    let signed : Bool × List Char :=
      match s.data with
      | '+' :: r => (false, r)
      | '-' :: r => (true, r)
      | cs => (false, cs)
    let neg := signed.1
    let res := ParseUint (String.mk signed.2)
    let un := res.1
    if res.2 = some NumError.ErrSyntax then (0, some NumError.ErrSyntax)
    else
      let cutoff : Nat := 2 ^ 63
      if neg = false ∧ un ≥ cutoff then ((cutoff : Int) - 1, some NumError.ErrRange)
      else if neg = true ∧ un > cutoff then (-(cutoff : Int), some NumError.ErrRange)
      else
        let n := toInt64 un
        (if neg then wrapInt64 (-n) else n, none)

/-! ## The map of signed fields -/

/-- The assignment `m[k] = v` on a map kept as a list of distinct keys with their values. -/
def mapSet : List (String × String) → String → String → List (String × String)
  | [], k, v => [(k, v)]
  | (k', v') :: rest, k, v => if k' = k then (k, v) :: rest else (k', v') :: mapSet rest k v

/-- The lookup `m[k]`; `none` is the nil interface of a missing key. -/
def mapGet : List (String × String) → String → Option String
  | [], _ => none
  | (k', v') :: rest, k => if k' = k then some v' else mapGet rest k

/-- The keys held by a map. -/
def mapKeys (m : List (String × String)) : List String := m.map Prod.fst

/-! ## The connector -/

/-- The map `dataMap` of `verifyTelegramAuth` after its six assignments (lines 244-260). -/
def buildDataMap (data : TelegramAuthData) : List (String × String) :=
  let dataMap : List (String × String) := []
  let dataMap := mapSet dataMap "id" (sprintD data.ID)
  let dataMap := mapSet dataMap "auth_date" (sprintD data.AuthDate)
  let dataMap := if data.FirstName ≠ "" then mapSet dataMap "first_name" data.FirstName else dataMap
  let dataMap := if data.LastName ≠ "" then mapSet dataMap "last_name" data.LastName else dataMap
  let dataMap := if data.Username ≠ "" then mapSet dataMap "username" data.Username else dataMap
  let dataMap := if data.PhotoURL ≠ "" then mapSet dataMap "photo_url" data.PhotoURL else dataMap
  dataMap

/-- The slice `pairs` of `verifyTelegramAuth` (lines 262-273), from the keys in the
order the `range` loop appended them and the map. -/
def dataCheckPairsOf (ranged : List String) (dataMap : List (String × String)) : List String :=
  let keys := sortStrings ranged
  keys.map fun k => k ++ "=" ++ sprintV (mapGet dataMap k)

/-- The string `dataCheckString` of `verifyTelegramAuth` (line 274). -/
def dataCheckStringOf (ranged : List String) (dataMap : List (String × String)) : String :=
  stringsJoin (dataCheckPairsOf ranged dataMap) "\n"

/-- The slice `pairs` of `verifyTelegramAuth` for an assertion. -/
def dataCheckPairs (rt : GoRuntime) (data : TelegramAuthData) : List String :=
  let dataMap := buildDataMap data
  dataCheckPairsOf (rt.rangeKeys (mapKeys dataMap)) dataMap

/-- The string `dataCheckString` of `verifyTelegramAuth` for an assertion. -/
def dataCheckString (rt : GoRuntime) (data : TelegramAuthData) : String :=
  let dataMap := buildDataMap data
  dataCheckStringOf (rt.rangeKeys (mapKeys dataMap)) dataMap

/-- The string `calculatedHash` of `verifyTelegramAuth` (lines 276-282). -/
def calculatedHash (rt : GoRuntime) (botToken : String) (data : TelegramAuthData) : String :=
  let secretKey := rt.sha256Sum256 botToken
  hexEncodeToString (rt.hmacSha256 secretKey (dataCheckString rt data))

/-- The method `verifyTelegramAuth`: checks the authenticity of the Telegram data. -/
def verifyTelegramAuth (rt : GoRuntime) (t : Connector) (data : TelegramAuthData) : Bool :=
  if t.Config.BotToken = "" ∨ data.Hash = "" then false
  else decide (calculatedHash rt t.Config.BotToken data = data.Hash)

/-- The assertion `authData` that `ConnectorReceiver` assembles from the query
(lines 191-205); `params` is `params.Get`. -/
def assembleAuthData (params : String → String) : TelegramAuthData :=
  let id := params "id"
  let idInt := (ParseInt id).1
  let authDate := params "auth_date"
  let authDateInt := (ParseInt authDate).1
  { ID := idInt
    FirstName := params "first_name"
    LastName := params "last_name"
    Username := params "username"
    PhotoURL := params "photo_url"
    AuthDate := authDateInt
    Hash := params "hash" }

/-- The method `ConnectorReceiver` on the query `params` (as `params.Get`) with
`now` the value of `time.Now().Unix()`: the record and the error (`none` is nil). -/
def ConnectorReceiver (rt : GoRuntime) (t : Connector) (params : String → String) (now : Int) :
    ExternalLoginUserInfo × Option String :=
  let authData := assembleAuthData params
  if !verifyTelegramAuth rt t authData then
    (zeroUserInfo, some "telegram auth data verification failed")
  else if wrapInt64 (now - authData.AuthDate) > 86400 then
    (zeroUserInfo, some "auth data is too old")
  else
    let metaInfo := rt.jsonMarshal authData
    let userInfo : ExternalLoginUserInfo :=
      { ExternalID := sprintD authData.ID
        DisplayName := rt.trimSpace (authData.FirstName ++ " " ++ authData.LastName)
        Username := authData.Username
        Email := ""
        MetaInfo := metaInfo
        Avatar := authData.PhotoURL }
    let userInfo :=
      if userInfo.Username = "" then { userInfo with Username := userInfo.ExternalID } else userInfo
    (userInfo, none)

/-! ## Notions used to state the properties -/

/-- The six signed fields in byte-wise ascending order of their names, each with its
value as text (the two integers in base 10). -/
def signedFields (d : TelegramAuthData) : List (String × String) :=
  [("auth_date", toString d.AuthDate), ("first_name", d.FirstName), ("id", toString d.ID),
   ("last_name", d.LastName), ("photo_url", d.PhotoURL), ("username", d.Username)]

/-- A field takes part in the data-check string: `auth_date` and `id` always, the
others when their value is not empty. -/
def included (p : String × String) : Bool :=
  decide (p.1 = "auth_date") || decide (p.1 = "id") || decide (p.2 ≠ "")

/-- The `name=value` pairs of the fields taking part, in ascending order of the names. -/
def canonicalPairs (d : TelegramAuthData) : List String :=
  ((signedFields d).filter included).map fun p => p.1 ++ "=" ++ p.2

/-- The pairs joined by one newline between neighbours, none at the end. -/
def canonicalString (d : TelegramAuthData) : String :=
  String.intercalate "\n" (canonicalPairs d)

/-- The number a run of decimal digits denotes, continuing from `n`. -/
def digitsValueFrom (n : Nat) (ds : List Char) : Nat :=
  ds.foldl (fun acc c => acc * 10 + (c.toNat - 48)) n

/-- A decimal digit `'0'` to `'9'`. -/
def isDigitChar (c : Char) : Bool := decide (48 ≤ c.toNat ∧ c.toNat ≤ 57)

/-- The pieces of a text between its newline characters. -/
def splitNewline : List Char → List (List Char)
  | [] => [[]]
  | c :: cs =>
    if c = '\n' then [] :: splitNewline cs
    else
      match splitNewline cs with
      | [] => [[c]]
      | l :: ls => (c :: l) :: ls

/-- The newline-separated lines of a string. -/
def linesOf (s : String) : List String := (splitNewline s.data).map String.mk

/-- The string `s` begins with the string `lead`. -/
def beginsWith (lead s : String) : Bool := lead.data.isPrefixOf s.data

/-- The string holds no newline character. -/
def newlineFree (s : String) : Prop := '\n' ∉ s.data

/-- The assertion `d2` is `d1` with the value of exactly one signed field changed
and the hash kept. -/
def singleFieldChange (d1 d2 : TelegramAuthData) : Prop :=
  d2 ≠ d1 ∧
    ((∃ v, d2 = { d1 with ID := v }) ∨ (∃ v, d2 = { d1 with AuthDate := v }) ∨
     (∃ v, d2 = { d1 with FirstName := v }) ∨ (∃ v, d2 = { d1 with LastName := v }) ∨
     (∃ v, d2 = { d1 with Username := v }) ∨ (∃ v, d2 = { d1 with PhotoURL := v }))

/-- A literal starts with a minus sign. -/
def literalNegative (s : String) : Bool :=
  match s.data with
  | '-' :: _ => true
  | _ => false

/-- The characters of a literal after one leading `+` or `-`, if any. -/
def literalBody (s : String) : List Char :=
  match s.data with
  | '+' :: r => r
  | '-' :: r => r
  | cs => cs

/-- The string is a base-10 literal: an optional sign and one or more decimal digits. -/
def isDecimalLiteral (s : String) : Bool :=
  decide (literalBody s ≠ []) && (literalBody s).all isDigitChar

/-- The integer a base-10 literal denotes. -/
def literalValue (s : String) : Int :=
  if literalNegative s then -(digitsValueFrom 0 (literalBody s) : Int)
  else (digitsValueFrom 0 (literalBody s) : Int)

/-- The string is a valid base-10 literal of a signed 64-bit integer. -/
def validInt64Literal (s : String) : Bool :=
  isDecimalLiteral s && decide (-(2 : Int) ^ 63 ≤ literalValue s) && decide (literalValue s < 2 ^ 63)

/-- The value a query parameter yields for an integer field when the parse error is
dropped, said without the loop: nothing after the sign gives 0; leading digits that
already reach 2^64 give the bound of the sign; otherwise a character that is not a
digit gives 0; otherwise the number, kept within the 64-bit signed range. -/
def lenientValue (s : String) : Int :=
  let body := literalBody s
  let lead := body.takeWhile isDigitChar
  let v := digitsValueFrom 0 lead
  if body = [] then 0
  else if 2 ^ 64 ≤ v then (if literalNegative s then -(2 : Int) ^ 63 else 2 ^ 63 - 1)
  else if lead ≠ body then 0
  else if literalNegative s then (if v > 2 ^ 63 then -(2 : Int) ^ 63 else -(v : Int))
  else (if v ≥ 2 ^ 63 then 2 ^ 63 - 1 else (v : Int))

/-! ## Sample inputs -/

/-- A runtime to evaluate the connector on samples: `range` visits the keys in reverse
order, and the digests are stand-ins (32 bytes holding the length of the message). -/
def sampleRuntime : GoRuntime :=
  { rangeKeys := List.reverse
    rangeKeys_perm := fun ks => List.reverse_perm ks
    sha256Sum256 := fun _ => []
    hmacSha256 := fun _ msg => List.replicate 32 (Fin.ofNat msg.length)
    hmacSha256_length := fun _ _ => List.length_replicate _ _
    jsonMarshal := fun _ => ""
    trimSpace := fun s => s }

/-- A connector configured with the bot token `secret`. -/
def sampleConnector : Connector :=
  { Config := { BotToken := "secret", BotUsername := "sample_bot", RedirectPath := "" } }

/-- The query values `params.Get` returns for the seven parameter names. -/
def queryOf (id authDate firstName lastName username photoURL hash : String) : String → String :=
  fun name =>
    if name = "id" then id
    else if name = "auth_date" then authDate
    else if name = "first_name" then firstName
    else if name = "last_name" then lastName
    else if name = "username" then username
    else if name = "photo_url" then photoURL
    else if name = "hash" then hash
    else ""

/-- The assertion of the concrete scenario: id 42, first name Ann, auth_date 1700000000. -/
def annData (hash : String) : TelegramAuthData :=
  { ID := 42, FirstName := "Ann", LastName := "", Username := "", PhotoURL := "",
    AuthDate := 1700000000, Hash := hash }

/-- The signature the stand-in digests of `sampleRuntime` give the assertion `annData`. -/
def annHash : String := "2929292929292929292929292929292929292929292929292929292929292929"

/-- An assertion without username whose photo URL carries a newline and the text of a
username pair. -/
def smuggledData (hash : String) : TelegramAuthData :=
  { ID := 42, FirstName := "", LastName := "", Username := "", PhotoURL := "X\nusername=Y",
    AuthDate := 1700000000, Hash := hash }

/-- The assertion with photo URL `X` and username `Y`. -/
def plainData (hash : String) : TelegramAuthData :=
  { ID := 42, FirstName := "", LastName := "", Username := "Y", PhotoURL := "X",
    AuthDate := 1700000000, Hash := hash }

/-- The signature the stand-in digests of `sampleRuntime` give `smuggledData` and `plainData`. -/
def smuggledHash : String := "3131313131313131313131313131313131313131313131313131313131313131"

/-! ## Sorting the keys -/

theorem lessChars_iff_lt : ∀ (a b : List Char), lessChars a b = true ↔ a < b
  | [], [] => by simp [lessChars]
  | [], b :: bs => by simp only [lessChars, true_iff]; exact List.Lex.nil
  | a :: as, [] => by simp [lessChars]
  | a :: as, b :: bs => by
    have ih := lessChars_iff_lt as bs
    have hab : a < b ↔ a.toNat < b.toNat := Iff.rfl
    have hba : b < a ↔ b.toNat < a.toNat := Iff.rfl
    unfold lessChars
    constructor
    · intro h
      split_ifs at h with h1 h2
      · exact List.Lex.rel (hab.mpr h1)
      · have hEq : a = b :=
          le_antisymm (not_lt.mp (fun h' => h2 (hba.mp h'))) (not_lt.mp (fun h' => h1 (hab.mp h')))
        subst hEq
        exact List.Lex.cons (ih.mp h)
    · intro h
      cases h with
      | rel h' => simp [hab.mp h']
      | cons h3 => simp [ih.mpr h3]

theorem stringLess_iff_lt (a b : String) : stringLess a b = true ↔ a < b := by
  unfold stringLess
  rw [lessChars_iff_lt, String.lt_iff_toList_lt]
  rfl

theorem insertionStep_perm (x : String) (left : List String) :
    List.Perm (insertionStep x left) (x :: left) := by
  induction left with
  | nil => simp [insertionStep]
  | cons y left ih =>
    unfold insertionStep
    split_ifs
    · exact (List.Perm.cons y ih).trans (List.Perm.swap x y left)
    · exact List.Perm.refl _

theorem insertionStep_sorted (x : String) (left : List String)
    (h : List.Pairwise (fun a b => b ≤ a) left) :
    List.Pairwise (fun a b => b ≤ a) (insertionStep x left) := by
  induction left with
  | nil => simp [insertionStep]
  | cons y left ih =>
    rw [List.pairwise_cons] at h
    unfold insertionStep
    split_ifs with hxy
    · rw [List.pairwise_cons]
      refine ⟨?_, ih h.2⟩
      intro z hz
      rcases List.mem_cons.mp ((insertionStep_perm x left).mem_iff.mp hz) with rfl | hz'
      · exact le_of_lt ((stringLess_iff_lt _ _).mp hxy)
      · exact h.1 z hz'
    · have hyx : y ≤ x := not_lt.mp (fun h' => hxy ((stringLess_iff_lt _ _).mpr h'))
      rw [List.pairwise_cons]
      refine ⟨?_, List.pairwise_cons.mpr h⟩
      intro z hz
      rcases List.mem_cons.mp hz with rfl | hz'
      · exact hyx
      · exact le_trans (h.1 z hz') hyx

theorem foldl_insertionStep (keys : List String) :
    ∀ left : List String, List.Pairwise (fun a b => b ≤ a) left →
      List.Perm (keys.foldl (fun left x => insertionStep x left) left) (keys ++ left) ∧
      List.Pairwise (fun a b => b ≤ a) (keys.foldl (fun left x => insertionStep x left) left) := by
  induction keys with
  | nil => intro left h; exact ⟨List.Perm.refl _, h⟩
  | cons k keys ih =>
    intro left h
    have h1 := ih (insertionStep k left) (insertionStep_sorted k left h)
    refine ⟨?_, h1.2⟩
    simp only [List.foldl_cons]
    refine h1.1.trans ?_
    refine ((insertionStep_perm k left).append_left keys).trans ?_
    simp

theorem sortStrings_perm (keys : List String) : List.Perm (sortStrings keys) keys := by
  unfold sortStrings
  refine (List.reverse_perm _).trans ?_
  simpa using (foldl_insertionStep keys [] List.Pairwise.nil).1

theorem sortStrings_sorted (keys : List String) :
    List.Pairwise (fun a b => a ≤ b) (sortStrings keys) := by
  unfold sortStrings
  rw [List.pairwise_reverse]
  exact (foldl_insertionStep keys [] List.Pairwise.nil).2

/-- The result of sorting is determined by the keys alone. -/
theorem sortStrings_eq_of_perm (keys sorted : List String) (hp : List.Perm keys sorted)
    (hs : List.Pairwise (fun a b => stringLess a b = true) sorted) :
    sortStrings keys = sorted := by
  refine List.Perm.eq_of_sorted (fun a b _ _ h1 h2 => le_antisymm h1 h2) (sortStrings_sorted keys)
    ?_ ((sortStrings_perm keys).trans hp)
  exact hs.imp (fun h => le_of_lt ((stringLess_iff_lt _ _).mp h))

theorem sprintD_eq_toString (n : Int) : sprintD n = toString n := by
  cases n <;> rfl

theorem intercalate_go_acc (sep : String) : ∀ (l : List String) (acc : String),
    String.intercalate.go acc sep l = acc ++ String.intercalate.go "" sep l
  | [], acc => by simp [String.intercalate.go]
  | b :: l, acc => by
    rw [String.intercalate.go, intercalate_go_acc sep l (acc ++ sep ++ b), String.intercalate.go,
      intercalate_go_acc sep l ("" ++ sep ++ b)]
    simp [String.append_assoc]

theorem stringsJoin_eq_intercalate (sep : String) : ∀ l : List String,
    stringsJoin l sep = String.intercalate sep l
  | [] => rfl
  | [a] => by simp [stringsJoin, String.intercalate, String.intercalate.go]
  | a :: b :: rest => by
    have ih := stringsJoin_eq_intercalate sep (b :: rest)
    rw [stringsJoin, ih]
    simp only [String.intercalate, String.intercalate.go]
    rw [intercalate_go_acc sep rest (a ++ sep ++ b), intercalate_go_acc sep rest b]
    simp [String.append_assoc]

theorem mapKeys_buildDataMap (d : TelegramAuthData) :
    List.Perm (mapKeys (buildDataMap d)) (((signedFields d).filter included).map Prod.fst) := by
  by_cases h1 : d.FirstName = "" <;> by_cases h2 : d.LastName = "" <;>
  by_cases h3 : d.PhotoURL = "" <;> by_cases h4 : d.Username = "" <;>
  simp [buildDataMap, mapSet, mapKeys, signedFields, included, h1, h2, h3, h4] <;> decide

theorem canonicalKeys_sorted (d : TelegramAuthData) :
    List.Pairwise (fun a b => stringLess a b = true)
      (((signedFields d).filter included).map Prod.fst) := by
  have hsub : List.Sublist (((signedFields d).filter included).map Prod.fst)
      ((signedFields d).map Prod.fst) := (List.filter_sublist _).map _
  refine List.Pairwise.sublist hsub ?_
  simp only [signedFields, List.map]
  decide

theorem pairs_buildDataMap (d : TelegramAuthData) :
    (((signedFields d).filter included).map Prod.fst).map
      (fun k => k ++ "=" ++ sprintV (mapGet (buildDataMap d) k)) = canonicalPairs d := by
  by_cases h1 : d.FirstName = "" <;> by_cases h2 : d.LastName = "" <;>
  by_cases h3 : d.PhotoURL = "" <;> by_cases h4 : d.Username = "" <;>
  simp [buildDataMap, mapSet, mapGet, sprintV, canonicalPairs, signedFields, included,
    sprintD_eq_toString, h1, h2, h3, h4]

/-- The data-check string does not depend on the order in which the keys were ranged over. -/
theorem dataCheckStringOf_eq (d : TelegramAuthData) (ranged : List String)
    (h : List.Perm ranged (mapKeys (buildDataMap d))) :
    dataCheckStringOf ranged (buildDataMap d) = stringsJoin (canonicalPairs d) "\n" := by
  unfold dataCheckStringOf dataCheckPairsOf
  rw [sortStrings_eq_of_perm ranged _ (h.trans (mapKeys_buildDataMap d)) (canonicalKeys_sorted d)]
  simp only [pairs_buildDataMap]

theorem dataCheckString_eq (rt : GoRuntime) (d : TelegramAuthData) :
    dataCheckString rt d = stringsJoin (canonicalPairs d) "\n" :=
  dataCheckStringOf_eq d _ (rt.rangeKeys_perm _)

theorem digitChar_toNat (m : Nat) (h : m < 10) : (Nat.digitChar m).toNat = 48 + m := by
  interval_cases m <;> rfl

theorem toDigitsCore_decimal (fuel : Nat) : ∀ (n : Nat) (ds : List Char), n < fuel →
    ∃ lead : List Char, Nat.toDigitsCore 10 fuel n ds = lead ++ ds ∧ lead ≠ [] ∧
      (∀ c ∈ lead, isDigitChar c = true) ∧ digitsValueFrom 0 lead = n := by
  induction fuel with
  | zero => intro n ds h; omega
  | succ fuel ih =>
    intro n ds h
    have hd : (Nat.digitChar (n % 10)).toNat = 48 + n % 10 :=
      digitChar_toNat _ (Nat.mod_lt _ (by decide))
    rw [Nat.toDigitsCore]
    by_cases h0 : n / 10 = 0
    · refine ⟨[Nat.digitChar (n % 10)], by simp [h0], by simp, ?_, ?_⟩
      · intro c hc
        rw [List.mem_singleton.mp hc]
        simp [isDigitChar, hd]; omega
      · simp [digitsValueFrom, hd]; omega
    · obtain ⟨lead, h1, h2, h3, h4⟩ := ih (n / 10) (Nat.digitChar (n % 10) :: ds) (by omega)
      refine ⟨lead ++ [Nat.digitChar (n % 10)], by simp [h0, h1], by simp, ?_, ?_⟩
      · intro c hc
        rcases List.mem_append.mp hc with hc | hc
        · exact h3 c hc
        · rw [List.mem_singleton.mp hc]
          simp [isDigitChar, hd]; omega
      · unfold digitsValueFrom at h4 ⊢
        rw [List.foldl_append, h4]
        simp [hd]; omega

theorem repr_decimal (n : Nat) :
    (Nat.repr n).data ≠ [] ∧ (∀ c ∈ (Nat.repr n).data, isDigitChar c = true) ∧
      digitsValueFrom 0 (Nat.repr n).data = n := by
  obtain ⟨lead, h1, h2, h3, h4⟩ := toDigitsCore_decimal (n + 1) n [] (Nat.lt_succ_self n)
  have hr : (Nat.repr n).data = lead := by
    simp [Nat.repr, Nat.toDigits, h1, List.asString]
  rw [hr]
  exact ⟨h2, h3, h4⟩

theorem sprintD_data (n : Int) :
    (∃ m : Nat, n = Int.ofNat m ∧ (sprintD n).data = (Nat.repr m).data) ∨
    (∃ m : Nat, n = Int.negSucc m ∧ (sprintD n).data = '-' :: (Nat.repr (m + 1)).data) := by
  cases n with
  | ofNat m => exact Or.inl ⟨m, rfl, rfl⟩
  | negSucc m => exact Or.inr ⟨m, rfl, by simp [sprintD]⟩

theorem sprintD_ne_empty (n : Int) : sprintD n ≠ "" := by
  intro h
  have hd : (sprintD n).data = [] := by rw [h]
  rcases sprintD_data n with ⟨m, _, hm⟩ | ⟨m, _, hm⟩
  · exact (repr_decimal m).1 (hm ▸ hd)
  · rw [hm] at hd; exact List.cons_ne_nil _ _ hd

theorem sprintD_chars (n : Int) (c : Char) (hc : c ∈ (sprintD n).data) :
    c = '-' ∨ isDigitChar c = true := by
  rcases sprintD_data n with ⟨m, _, hm⟩ | ⟨m, _, hm⟩
  · rw [hm] at hc; exact Or.inr ((repr_decimal m).2.1 c hc)
  · rw [hm] at hc
    rcases List.mem_cons.mp hc with h | h
    · exact Or.inl h
    · exact Or.inr ((repr_decimal (m + 1)).2.1 c h)

theorem sprintD_newlineFree (n : Int) : newlineFree (sprintD n) := by
  intro hc
  rcases sprintD_chars n _ hc with h | h
  · exact absurd h (by decide)
  · exact absurd h (by decide)

theorem repr_head_ne_minus (m : Nat) (rest : List Char) : (Nat.repr m).data ≠ '-' :: rest := by
  intro h
  have hmem : '-' ∈ (Nat.repr m).data := by rw [h]; exact List.mem_cons_self _ _
  exact absurd ((repr_decimal m).2.1 _ hmem) (by decide)

theorem repr_injective (a b : Nat) (h : (Nat.repr a).data = (Nat.repr b).data) : a = b := by
  rw [← (repr_decimal a).2.2, ← (repr_decimal b).2.2, h]

theorem sprintD_injective (a b : Int) (h : sprintD a = sprintD b) : a = b := by
  have hd : (sprintD a).data = (sprintD b).data := by rw [h]
  rcases sprintD_data a with ⟨m, ha, hm⟩ | ⟨m, ha, hm⟩ <;>
  rcases sprintD_data b with ⟨k, hb, hk⟩ | ⟨k, hb, hk⟩ <;>
  rw [hm, hk] at hd
  · rw [ha, hb, repr_injective m k hd]
  · exact absurd hd (repr_head_ne_minus m _)
  · exact absurd hd.symm (repr_head_ne_minus k _)
  · have := repr_injective _ _ (List.cons.inj hd).2
    rw [ha, hb]; congr 1; omega

/-! ### Joining and splitting -/

theorem stringsJoin_cons_cons (a b : String) (rest : List String) (sep : String) :
    stringsJoin (a :: b :: rest) sep = a ++ sep ++ stringsJoin (b :: rest) sep := rfl

theorem splitNewline_ne_nil : ∀ cs : List Char, splitNewline cs ≠ []
  | [] => by simp [splitNewline]
  | c :: cs => by
    unfold splitNewline
    split_ifs
    · simp
    · split <;> simp

theorem splitNewline_append (b : List Char) : ∀ a : List Char,
    splitNewline (a ++ '\n' :: b) = splitNewline a ++ splitNewline b
  | [] => by simp [splitNewline]
  | c :: a => by
    have ih := splitNewline_append b a
    by_cases hc : c = '\n'
    · simp [splitNewline, hc, ih]
    · obtain ⟨l, ls, hl⟩ := List.exists_cons_of_ne_nil (splitNewline_ne_nil a)
      simp [splitNewline, hc, ih, hl]

theorem splitNewline_of_not_mem : ∀ a : List Char, '\n' ∉ a → splitNewline a = [a]
  | [], _ => rfl
  | c :: a, h => by
    have hc : c ≠ '\n' := fun h' => h (h' ▸ List.mem_cons_self _ _)
    have ih := splitNewline_of_not_mem a (fun h' => h (List.mem_cons_of_mem _ h'))
    simp [splitNewline, hc, ih]

/-- The lines of joined pairs are the lines of the pairs, in order. -/
theorem splitNewline_stringsJoin : ∀ l : List String, l ≠ [] →
    splitNewline (stringsJoin l "\n").data = l.flatMap fun s => splitNewline s.data
  | [], h => absurd rfl h
  | [a], _ => by simp [stringsJoin]
  | a :: b :: rest, _ => by
    have ih := splitNewline_stringsJoin (b :: rest) (List.cons_ne_nil _ _)
    rw [stringsJoin_cons_cons]
    have : (a ++ "\n" ++ stringsJoin (b :: rest) "\n").data
        = a.data ++ '\n' :: (stringsJoin (b :: rest) "\n").data := by
      simp [String.data_append]
    rw [this, splitNewline_append, ih]
    simp

theorem linesOf_stringsJoin_of_newlineFree (l : List String) (hne : l ≠ [])
    (h : ∀ s ∈ l, newlineFree s) : linesOf (stringsJoin l "\n") = l := by
  unfold linesOf
  rw [splitNewline_stringsJoin l hne]
  induction l with
  | nil => exact absurd rfl hne
  | cons a l ih =>
    have ha : splitNewline a.data = [a.data] :=
      splitNewline_of_not_mem _ (h a (List.mem_cons_self _ _))
    by_cases hl : l = []
    · subst hl; simp [ha]
    · have := ih hl (fun s hs => h s (List.mem_cons_of_mem _ hs))
      simp only [List.flatMap_cons, List.map_append, ha, this]
      simp

/-- The characters of the joined pairs followed by one newline: every pair followed by a newline. -/
theorem stringsJoin_terminated : ∀ l : List String, l ≠ [] →
    (stringsJoin l "\n").data ++ ['\n'] = l.flatMap fun s => s.data ++ ['\n']
  | [], h => absurd rfl h
  | [a], _ => by simp [stringsJoin]
  | a :: b :: rest, _ => by
    have ih := stringsJoin_terminated (b :: rest) (List.cons_ne_nil _ _)
    rw [stringsJoin_cons_cons]
    simp only [String.data_append, List.flatMap_cons, List.append_assoc] at ih ⊢
    rw [ih]

theorem canonicalPairs_eq (d : TelegramAuthData) :
    canonicalPairs d =
      ("auth_date=" ++ sprintD d.AuthDate) ::
        ((if d.FirstName = "" then [] else ["first_name=" ++ d.FirstName]) ++
          ("id=" ++ sprintD d.ID) ::
            ((if d.LastName = "" then [] else ["last_name=" ++ d.LastName]) ++
              ((if d.PhotoURL = "" then [] else ["photo_url=" ++ d.PhotoURL]) ++
                (if d.Username = "" then [] else ["username=" ++ d.Username])))) := by
  by_cases h1 : d.FirstName = "" <;> by_cases h2 : d.LastName = "" <;>
  by_cases h3 : d.PhotoURL = "" <;> by_cases h4 : d.Username = "" <;>
  simp [canonicalPairs, signedFields, included, sprintD_eq_toString, h1, h2, h3, h4]

theorem canonicalPairs_ne_nil (d : TelegramAuthData) : canonicalPairs d ≠ [] := by
  rw [canonicalPairs_eq]; exact List.cons_ne_nil _ _

theorem append_left_cancel_string (k x y : String) (h : k ++ x = k ++ y) : x = y := by
  have hd : (k ++ x).data = (k ++ y).data := by rw [h]
  rw [String.data_append, String.data_append] at hd
  exact String.ext (List.append_cancel_left hd)

/-- The pair of a field is found again among the pairs by the first letter of its name. -/
theorem canonicalPairs_find (d : TelegramAuthData) :
    (canonicalPairs d).find? (fun s => s.data.head? == some 'a')
        = some ("auth_date=" ++ sprintD d.AuthDate) ∧
    (canonicalPairs d).find? (fun s => s.data.head? == some 'i')
        = some ("id=" ++ sprintD d.ID) ∧
    (canonicalPairs d).find? (fun s => s.data.head? == some 'f')
        = (if d.FirstName = "" then none else some ("first_name=" ++ d.FirstName)) ∧
    (canonicalPairs d).find? (fun s => s.data.head? == some 'l')
        = (if d.LastName = "" then none else some ("last_name=" ++ d.LastName)) ∧
    (canonicalPairs d).find? (fun s => s.data.head? == some 'p')
        = (if d.PhotoURL = "" then none else some ("photo_url=" ++ d.PhotoURL)) ∧
    (canonicalPairs d).find? (fun s => s.data.head? == some 'u')
        = (if d.Username = "" then none else some ("username=" ++ d.Username)) := by
  rw [canonicalPairs_eq]
  by_cases h1 : d.FirstName = "" <;> by_cases h2 : d.LastName = "" <;>
  by_cases h3 : d.PhotoURL = "" <;> by_cases h4 : d.Username = "" <;>
  simp [h1, h2, h3, h4, List.find?, String.data_append]

theorem optional_pair_injective (k x y : String)
    (h : (if x = "" then none else some (k ++ x)) = (if y = "" then none else some (k ++ y))) :
    x = y := by
  by_cases hx : x = "" <;> by_cases hy : y = "" <;> simp [hx, hy] at h
  · rw [hx, hy]
  · exact append_left_cancel_string k x y h

theorem canonicalPairs_injective (d1 d2 : TelegramAuthData)
    (h : canonicalPairs d1 = canonicalPairs d2) :
    d1.ID = d2.ID ∧ d1.AuthDate = d2.AuthDate ∧ d1.FirstName = d2.FirstName ∧
      d1.LastName = d2.LastName ∧ d1.Username = d2.Username ∧ d1.PhotoURL = d2.PhotoURL := by
  obtain ⟨a1, i1, f1, l1, p1, u1⟩ := canonicalPairs_find d1
  obtain ⟨a2, i2, f2, l2, p2, u2⟩ := canonicalPairs_find d2
  rw [h] at a1 i1 f1 l1 p1 u1
  rw [a2] at a1; rw [i2] at i1; rw [f2] at f1; rw [l2] at l1; rw [p2] at p1; rw [u2] at u1
  refine ⟨?_, ?_, ?_, ?_, ?_, ?_⟩
  · exact (sprintD_injective _ _ (append_left_cancel_string _ _ _ (Option.some.inj i1))).symm
  · exact (sprintD_injective _ _ (append_left_cancel_string _ _ _ (Option.some.inj a1))).symm
  · exact (optional_pair_injective _ _ _ f1).symm
  · exact (optional_pair_injective _ _ _ l1).symm
  · exact (optional_pair_injective _ _ _ u1).symm
  · exact (optional_pair_injective _ _ _ p1).symm

theorem canonicalPairs_newlineFree (d : TelegramAuthData)
    (h1 : newlineFree d.FirstName) (h2 : newlineFree d.LastName)
    (h3 : newlineFree d.Username) (h4 : newlineFree d.PhotoURL) :
    ∀ s ∈ canonicalPairs d, newlineFree s := by
  have hi := sprintD_newlineFree d.ID
  have ha := sprintD_newlineFree d.AuthDate
  unfold newlineFree at *
  intro s hs
  rw [canonicalPairs_eq] at hs
  simp only [List.mem_cons, List.mem_append] at hs
  rcases hs with hs | hs | hs | hs | hs | hs
  · subst hs; simpa [String.data_append] using ha
  · split_ifs at hs
    · simp at hs
    · rw [List.mem_singleton.mp hs]; simpa [String.data_append] using h1
  · subst hs; simpa [String.data_append] using hi
  · split_ifs at hs
    · simp at hs
    · rw [List.mem_singleton.mp hs]; simpa [String.data_append] using h2
  · split_ifs at hs
    · simp at hs
    · rw [List.mem_singleton.mp hs]; simpa [String.data_append] using h4
  · split_ifs at hs
    · simp at hs
    · rw [List.mem_singleton.mp hs]; simpa [String.data_append] using h3

theorem linesOf_canonical (d : TelegramAuthData)
    (h1 : newlineFree d.FirstName) (h2 : newlineFree d.LastName)
    (h3 : newlineFree d.Username) (h4 : newlineFree d.PhotoURL) :
    linesOf (stringsJoin (canonicalPairs d) "\n") = canonicalPairs d :=
  linesOf_stringsJoin_of_newlineFree _ (canonicalPairs_ne_nil d)
    (canonicalPairs_newlineFree d h1 h2 h3 h4)

/-- The characters of the joined pairs, one newline added at the end, field by field. -/
theorem canonical_terminated (d : TelegramAuthData) :
    (stringsJoin (canonicalPairs d) "\n").data ++ ['\n'] =
      ("auth_date=".data ++ (sprintD d.AuthDate).data ++ ['\n']) ++
      ((if d.FirstName = "" then [] else "first_name=".data ++ d.FirstName.data ++ ['\n']) ++
      (("id=".data ++ (sprintD d.ID).data ++ ['\n']) ++
      ((if d.LastName = "" then [] else "last_name=".data ++ d.LastName.data ++ ['\n']) ++
      ((if d.PhotoURL = "" then [] else "photo_url=".data ++ d.PhotoURL.data ++ ['\n']) ++
      (if d.Username = "" then [] else "username=".data ++ d.Username.data ++ ['\n']))))) := by
  rw [stringsJoin_terminated _ (canonicalPairs_ne_nil d), canonicalPairs_eq]
  by_cases h1 : d.FirstName = "" <;> by_cases h2 : d.LastName = "" <;>
  by_cases h3 : d.PhotoURL = "" <;> by_cases h4 : d.Username = "" <;>
  simp [h1, h2, h3, h4, String.data_append]

theorem optional_segment_injective (k : List Char) (x y : String)
    (h : (if x = "" then [] else k ++ x.data ++ ['\n']) =
      (if y = "" then [] else k ++ y.data ++ ['\n'])) : x = y := by
  by_cases hx : x = "" <;> by_cases hy : y = "" <;> simp [hx, hy] at h
  · rw [hx, hy]
  · exact String.ext h

/-- Changing the value of one signed field changes the joined pairs. -/
theorem canonical_changes (d1 d2 : TelegramAuthData) (h : singleFieldChange d1 d2) :
    stringsJoin (canonicalPairs d1) "\n" ≠ stringsJoin (canonicalPairs d2) "\n" := by
  intro heq
  have ht : (stringsJoin (canonicalPairs d1) "\n").data ++ ['\n']
      = (stringsJoin (canonicalPairs d2) "\n").data ++ ['\n'] := by rw [heq]
  rw [canonical_terminated, canonical_terminated] at ht
  obtain ⟨hne, hc⟩ := h
  apply hne
  rcases hc with ⟨v, hv⟩ | ⟨v, hv⟩ | ⟨v, hv⟩ | ⟨v, hv⟩ | ⟨v, hv⟩ | ⟨v, hv⟩ <;> subst hv <;>
    simp only [List.append_cancel_left_eq, List.append_cancel_right_eq] at ht
  · have := sprintD_injective _ _ (String.ext ht); rw [← this]
  · have := sprintD_injective _ _ (String.ext ht); rw [← this]
  · have := optional_segment_injective _ _ _ ht; rw [← this]
  · have := optional_segment_injective _ _ _ ht; rw [← this]
  · have := optional_segment_injective _ _ _ ht; rw [← this]
  · have := optional_segment_injective _ _ _ ht; rw [← this]

theorem cutoff_value : maxUint64 / 10 + 1 = 1844674407370955162 := by decide

theorem digitsValueFrom_cons (n : Nat) (c : Char) (ds : List Char) :
    digitsValueFrom n (c :: ds) = digitsValueFrom (n * 10 + (c.toNat - 48)) ds := rfl

theorem le_digitsValueFrom (ds : List Char) : ∀ n : Nat, n ≤ digitsValueFrom n ds := by
  induction ds with
  | nil => intro n; exact Nat.le_refl _
  | cons c ds ih =>
    intro n
    rw [digitsValueFrom_cons]
    exact Nat.le_trans (by omega) (ih _)

theorem parseUintLoop_nondigit (c : Char) (rest : List Char) (n : Nat)
    (h : isDigitChar c = false) :
    parseUintLoop (maxUint64 / 10 + 1) (2 ^ 64 - 1) (c :: rest) n = (0, some NumError.ErrSyntax) := by
  simp only [isDigitChar, decide_eq_false_iff_not] at h
  unfold parseUintLoop
  simp only [h, if_false]
  split_ifs <;> simp

theorem parseUintLoop_digit (c : Char) (rest : List Char) (n : Nat)
    (h : isDigitChar c = true) (hn : n * 10 + (c.toNat - 48) < 2 ^ 64) :
    parseUintLoop (maxUint64 / 10 + 1) (2 ^ 64 - 1) (c :: rest) n =
      parseUintLoop (maxUint64 / 10 + 1) (2 ^ 64 - 1) rest (n * 10 + (c.toNat - 48)) := by
  simp only [isDigitChar, decide_eq_true_eq] at h
  rw [parseUintLoop]
  simp only [h, and_self, if_true, cutoff_value]
  have h1 : ¬ (c.toNat - 48 ≥ 10) := by omega
  have h2 : ¬ (n ≥ 1844674407370955162) := by omega
  have h3 : n * 10 % 2 ^ 64 = n * 10 := Nat.mod_eq_of_lt (by omega)
  have h4 : (n * 10 + (c.toNat - 48)) % 2 ^ 64 = n * 10 + (c.toNat - 48) := Nat.mod_eq_of_lt hn
  simp only [h1, h2, h3, h4, if_false]
  have h5 : ¬ (n * 10 + (c.toNat - 48) < n * 10 ∨ n * 10 + (c.toNat - 48) > 2 ^ 64 - 1) := by omega
  simp only [h5, if_false]

theorem parseUintLoop_digit_overflow (c : Char) (rest : List Char) (n : Nat)
    (h : isDigitChar c = true) (hlt : n < 2 ^ 64) (hn : 2 ^ 64 ≤ n * 10 + (c.toNat - 48)) :
    parseUintLoop (maxUint64 / 10 + 1) (2 ^ 64 - 1) (c :: rest) n = (2 ^ 64 - 1, some NumError.ErrRange) := by
  simp only [isDigitChar, decide_eq_true_eq] at h
  rw [parseUintLoop]
  simp only [h, and_self, if_true, cutoff_value]
  have h1 : ¬ (c.toNat - 48 ≥ 10) := by omega
  simp only [h1, if_false]
  by_cases h2 : n ≥ 1844674407370955162
  · simp only [h2, if_true]
  · have h3 : n * 10 % 2 ^ 64 = n * 10 := Nat.mod_eq_of_lt (by omega)
    have h4 : (n * 10 + (c.toNat - 48)) % 2 ^ 64 = n * 10 + (c.toNat - 48) - 2 ^ 64 := by
      omega
    simp only [h2, h3, h4, if_false]
    have h5 : n * 10 + (c.toNat - 48) - 2 ^ 64 < n * 10 ∨
        n * 10 + (c.toNat - 48) - 2 ^ 64 > 2 ^ 64 - 1 := by omega
    simp only [h5, if_true]

theorem parseUintLoop_digits (rest : List Char) : ∀ (ds : List Char) (n : Nat),
    (∀ c ∈ ds, isDigitChar c = true) → digitsValueFrom n ds < 2 ^ 64 →
    parseUintLoop (maxUint64 / 10 + 1) (2 ^ 64 - 1) (ds ++ rest) n =
      parseUintLoop (maxUint64 / 10 + 1) (2 ^ 64 - 1) rest (digitsValueFrom n ds) := by
  intro ds
  induction ds with
  | nil => intro n _ _; rfl
  | cons c ds ih =>
    intro n hd hv
    rw [digitsValueFrom_cons] at hv ⊢
    have hstep : n * 10 + (c.toNat - 48) < 2 ^ 64 :=
      Nat.lt_of_le_of_lt (le_digitsValueFrom ds _) hv
    rw [List.cons_append, parseUintLoop_digit c _ n (hd c (List.mem_cons_self _ _)) hstep]
    exact ih _ (fun x hx => hd x (List.mem_cons_of_mem _ hx)) hv

theorem parseUintLoop_overflow (rest : List Char) : ∀ (ds : List Char) (n : Nat),
    (∀ c ∈ ds, isDigitChar c = true) → n < 2 ^ 64 → 2 ^ 64 ≤ digitsValueFrom n ds →
    parseUintLoop (maxUint64 / 10 + 1) (2 ^ 64 - 1) (ds ++ rest) n = (2 ^ 64 - 1, some NumError.ErrRange) := by
  intro ds
  induction ds with
  | nil => intro n _ hn hv; simp only [digitsValueFrom, List.foldl_nil] at hv; omega
  | cons c ds ih =>
    intro n hd hn hv
    rw [digitsValueFrom_cons] at hv
    have hc := hd c (List.mem_cons_self _ _)
    by_cases hstep : n * 10 + (c.toNat - 48) < 2 ^ 64
    · rw [List.cons_append, parseUintLoop_digit c _ n hc hstep]
      exact ih _ (fun x hx => hd x (List.mem_cons_of_mem _ hx)) hstep hv
    · rw [List.cons_append, parseUintLoop_digit_overflow c _ n hc hn (by omega)]

theorem ParseUint_mk (body : List Char) (hne : body ≠ []) :
    ParseUint (String.mk body) =
      if 2 ^ 64 ≤ digitsValueFrom 0 (body.takeWhile isDigitChar) then
        (2 ^ 64 - 1, some NumError.ErrRange)
      else if body.takeWhile isDigitChar ≠ body then (0, some NumError.ErrSyntax)
      else (digitsValueFrom 0 (body.takeWhile isDigitChar), none) := by
  have hs : String.mk body ≠ "" := by
    intro h
    exact hne (congrArg String.data h)
  unfold ParseUint
  rw [if_neg hs]
  have hsplit : body = body.takeWhile isDigitChar ++ body.dropWhile isDigitChar :=
    (List.takeWhile_append_dropWhile _ _).symm
  have hlead : ∀ c ∈ body.takeWhile isDigitChar, isDigitChar c = true :=
    fun c hc => List.mem_takeWhile_imp hc
  show parseUintLoop (maxUint64 / 10 + 1) (2 ^ 64 - 1) body 0 = _
  by_cases hv : 2 ^ 64 ≤ digitsValueFrom 0 (body.takeWhile isDigitChar)
  · rw [if_pos hv]
    conv_lhs => rw [hsplit]
    exact parseUintLoop_overflow _ _ 0 hlead (by decide) hv
  · rw [if_neg hv]
    conv_lhs => rw [hsplit]
    rw [parseUintLoop_digits _ _ 0 hlead (by omega)]
    cases hrest : body.dropWhile isDigitChar with
    | nil =>
      have : body.takeWhile isDigitChar = body := by
        conv_rhs => rw [hsplit, hrest, List.append_nil]
      rw [if_neg (not_not.mpr this)]
      rfl
    | cons c rest =>
      have hc : isDigitChar c = false := by
        have := List.head_dropWhile_not isDigitChar body (by rw [hrest]; exact List.cons_ne_nil _ _)
        simpa [hrest] using this
      have hneq : body.takeWhile isDigitChar ≠ body := by
        intro h
        have hlen := congrArg List.length hsplit
        rw [h, hrest] at hlen
        simp at hlen
      rw [if_pos hneq]
      exact parseUintLoop_nondigit c rest _ hc

theorem ParseInt_sign (s : String) :
    (match s.data with
      | '+' :: r => (false, r)
      | '-' :: r => (true, r)
      | cs => (false, cs)) = (literalNegative s, literalBody s) := by
  unfold literalNegative literalBody
  split <;> simp_all

/-- The value `strconv.ParseInt` returns, whatever its error, is the lenient value. -/
theorem ParseInt_value (s : String) : (ParseInt s).1 = lenientValue s := by
  unfold ParseInt
  by_cases hs : s = ""
  · subst hs; rfl
  · rw [if_neg hs]
    simp only [ParseInt_sign]
    unfold lenientValue
    by_cases hb : literalBody s = []
    · simp [hb, ParseUint]
    · simp only [ParseUint_mk _ hb, hb, if_false]
      by_cases hv : 2 ^ 64 ≤ digitsValueFrom 0 ((literalBody s).takeWhile isDigitChar)
      · simp only [hv, if_true]
        cases literalNegative s <;> simp
      · simp only [hv, if_false]
        by_cases hl : (literalBody s).takeWhile isDigitChar ≠ literalBody s
        · simp [hl]
        · simp only [hl, if_false]
          cases literalNegative s <;> simp [toInt64, wrapInt64] <;> split_ifs <;> omega

/-! ### The signature and the handler -/

theorem hexEncodeToString_length (src : List Byte) :
    (hexEncodeToString src).length = 2 * src.length := by
  unfold hexEncodeToString
  show (src.flatMap _).length = _
  induction src with
  | nil => rfl
  | cons v src ih =>
    rw [List.flatMap_cons, List.length_append, ih]
    simp only [List.length_cons, List.length_nil]
    omega

theorem calculatedHash_length (rt : GoRuntime) (botToken : String) (d : TelegramAuthData) :
    (calculatedHash rt botToken d).length = 64 := by
  unfold calculatedHash
  simp only [hexEncodeToString_length, rt.hmacSha256_length]

theorem calculatedHash_ne_empty (rt : GoRuntime) (botToken : String) (d : TelegramAuthData) :
    calculatedHash rt botToken d ≠ "" := by
  intro h
  have := calculatedHash_length rt botToken d
  rw [h] at this
  exact absurd this (by decide)

theorem verifyTelegramAuth_eq_true_iff (rt : GoRuntime) (t : Connector) (d : TelegramAuthData) :
    verifyTelegramAuth rt t d = true ↔
      t.Config.BotToken ≠ "" ∧ d.Hash ≠ "" ∧ calculatedHash rt t.Config.BotToken d = d.Hash := by
  unfold verifyTelegramAuth
  by_cases h1 : t.Config.BotToken = "" <;> by_cases h2 : d.Hash = "" <;> simp [h1, h2]

theorem ConnectorReceiver_rejected (rt : GoRuntime) (t : Connector) (params : String → String)
    (now : Int) (h : verifyTelegramAuth rt t (assembleAuthData params) = false) :
    ConnectorReceiver rt t params now =
      (zeroUserInfo, some "telegram auth data verification failed") := by
  unfold ConnectorReceiver
  simp [h]

theorem ConnectorReceiver_stale (rt : GoRuntime) (t : Connector) (params : String → String)
    (now : Int) (h : verifyTelegramAuth rt t (assembleAuthData params) = true)
    (hs : wrapInt64 (now - (assembleAuthData params).AuthDate) > 86400) :
    ConnectorReceiver rt t params now = (zeroUserInfo, some "auth data is too old") := by
  unfold ConnectorReceiver
  simp [h, hs]

theorem ConnectorReceiver_accepted (rt : GoRuntime) (t : Connector) (params : String → String)
    (now : Int) (h : verifyTelegramAuth rt t (assembleAuthData params) = true)
    (hs : wrapInt64 (now - (assembleAuthData params).AuthDate) ≤ 86400) :
    ConnectorReceiver rt t params now =
      ({ ExternalID := sprintD (assembleAuthData params).ID
         DisplayName := rt.trimSpace
           ((assembleAuthData params).FirstName ++ " " ++ (assembleAuthData params).LastName)
         Username := if (assembleAuthData params).Username = "" then
             sprintD (assembleAuthData params).ID else (assembleAuthData params).Username
         Email := ""
         MetaInfo := rt.jsonMarshal (assembleAuthData params)
         Avatar := (assembleAuthData params).PhotoURL }, none) := by
  unfold ConnectorReceiver
  have hs' : ¬ wrapInt64 (now - (assembleAuthData params).AuthDate) > 86400 := not_lt.mpr hs
  simp only [h, hs', Bool.not_true, if_false, Bool.false_eq_true]
  by_cases hu : (assembleAuthData params).Username = "" <;> simp [hu]

theorem lenientValue_range (s : String) :
    -(2 : Int) ^ 63 ≤ lenientValue s ∧ lenientValue s < 2 ^ 63 := by
  unfold lenientValue
  simp only
  split_ifs <;> omega

theorem wrapInt64_of_range (i : Int) (h1 : -(2 : Int) ^ 63 ≤ i) (h2 : i < 2 ^ 63) :
    wrapInt64 i = i := by
  unfold wrapInt64
  omega

theorem assembleAuthData_AuthDate (params : String → String) :
    (assembleAuthData params).AuthDate = lenientValue (params "auth_date") :=
  ParseInt_value _

theorem assembleAuthData_ID (params : String → String) :
    (assembleAuthData params).ID = lenientValue (params "id") :=
  ParseInt_value _

theorem dataCheckPairs_eq (rt : GoRuntime) (d : TelegramAuthData) :
    dataCheckPairs rt d = canonicalPairs d := by
  unfold dataCheckPairs dataCheckPairsOf
  simp only []
  rw [sortStrings_eq_of_perm _ _ ((rt.rangeKeys_perm _).trans (mapKeys_buildDataMap d))
    (canonicalKeys_sorted d)]
  exact pairs_buildDataMap d

/-- Without overflow of the 64-bit subtraction the freshness check of `ConnectorReceiver`
compares the exact difference with 86400. -/
theorem freshness_exact_without_overflow (now authDate : Int)
    (h1 : -(2 : Int) ^ 63 ≤ now - authDate) (h2 : now - authDate < 2 ^ 63) :
    (wrapInt64 (now - authDate) > 86400 ↔ now - authDate > 86400) := by
  rw [wrapInt64_of_range _ h1 h2]

theorem mem_canonicalPairs (d : TelegramAuthData) (p : String) (hp : p ∈ canonicalPairs d) :
    p = "auth_date=" ++ sprintD d.AuthDate ∨ p = "id=" ++ sprintD d.ID ∨
    (d.FirstName ≠ "" ∧ p = "first_name=" ++ d.FirstName) ∨
    (d.LastName ≠ "" ∧ p = "last_name=" ++ d.LastName) ∨
    (d.PhotoURL ≠ "" ∧ p = "photo_url=" ++ d.PhotoURL) ∨
    (d.Username ≠ "" ∧ p = "username=" ++ d.Username) := by
  rw [canonicalPairs_eq] at hp
  simp only [List.mem_cons, List.mem_append] at hp
  rcases hp with hp | hp | hp | hp | hp | hp
  · exact Or.inl hp
  · split_ifs at hp with h
    · simp at hp
    · exact Or.inr (Or.inr (Or.inl ⟨h, List.mem_singleton.mp hp⟩))
  · exact Or.inr (Or.inl hp)
  · split_ifs at hp with h
    · simp at hp
    · exact Or.inr (Or.inr (Or.inr (Or.inl ⟨h, List.mem_singleton.mp hp⟩)))
  · split_ifs at hp with h
    · simp at hp
    · exact Or.inr (Or.inr (Or.inr (Or.inr (Or.inl ⟨h, List.mem_singleton.mp hp⟩))))
  · split_ifs at hp with h
    · simp at hp
    · exact Or.inr (Or.inr (Or.inr (Or.inr (Or.inr ⟨h, List.mem_singleton.mp hp⟩))))

/-- No pair of the canonical list begins with the name of an optional field that is empty. -/
theorem canonicalPairs_exclude_empty (d : TelegramAuthData) (p : String)
    (hp : p ∈ canonicalPairs d) :
    (d.FirstName = "" → beginsWith "first_name=" p = false) ∧
    (d.LastName = "" → beginsWith "last_name=" p = false) ∧
    (d.Username = "" → beginsWith "username=" p = false) ∧
    (d.PhotoURL = "" → beginsWith "photo_url=" p = false) := by
  rcases mem_canonicalPairs d p hp with h | h | ⟨hn, h⟩ | ⟨hn, h⟩ | ⟨hn, h⟩ | ⟨hn, h⟩ <;>
    subst h <;>
    refine ⟨?_, ?_, ?_, ?_⟩ <;> intro he <;>
    first
      | exact absurd he hn
      | simp [beginsWith, String.data_append, List.isPrefixOf]

theorem mem_linesOf_of_mem (l : List String) (hne : l ≠ []) (p : String) (hp : p ∈ l)
    (hfree : newlineFree p) : p ∈ linesOf (stringsJoin l "\n") := by
  unfold linesOf
  rw [splitNewline_stringsJoin l hne]
  refine List.mem_map.mpr ⟨p.data, ?_, rfl⟩
  refine List.mem_flatMap.mpr ⟨p, hp, ?_⟩
  rw [splitNewline_of_not_mem _ hfree]
  exact List.mem_singleton.mpr rfl

theorem takeWhile_eq_self_of_all (body : List Char) (h : body.all isDigitChar = true) :
    body.takeWhile isDigitChar = body := by
  induction body with
  | nil => rfl
  | cons c body ih =>
    simp only [List.all_cons, Bool.and_eq_true] at h
    simp only [List.takeWhile_cons, h.1, if_true, ih h.2]

theorem all_of_takeWhile_eq_self (body : List Char)
    (h : body.takeWhile isDigitChar = body) : body.all isDigitChar = true := by
  rw [List.all_eq_true]
  intro c hc
  rw [← h] at hc
  exact List.mem_takeWhile_imp hc

/-! ## The claims -/

/-- C1. For every assertion and every order in which the keys of the intermediate map
are ranged over, the data-check string built by `verifyTelegramAuth` is the canonical
string: the `name=value` pairs of `auth_date` and `id` (always, in base 10) and of each
of `first_name`, `last_name`, `photo_url`, `username` with a non-empty value, in the
byte-wise ascending order of the names, joined by one newline between pairs and none at
the end. For id 42, first name Ann and auth_date 1700000000 it is
`auth_date=1700000000\nfirst_name=Ann\nid=42`. -/
theorem dataCheckString_canonical (d : TelegramAuthData) (ranged : List String)
    (h : List.Perm ranged (mapKeys (buildDataMap d))) :
    dataCheckStringOf ranged (buildDataMap d) = canonicalString d ∧
    (∀ rt : GoRuntime, dataCheckString rt d = canonicalString d) ∧
    List.Pairwise (fun a b => stringLess a b = true) ((signedFields d).map Prod.fst) ∧
    (∀ hash : String,
      canonicalString (annData hash) = "auth_date=1700000000\nfirst_name=Ann\nid=42") := by
  have hc : stringsJoin (canonicalPairs d) "\n" = canonicalString d :=
    stringsJoin_eq_intercalate _ _
  refine ⟨(dataCheckStringOf_eq d ranged h).trans hc, ?_, ?_, ?_⟩
  · intro rt
    exact (dataCheckString_eq rt d).trans hc
  · simp only [signedFields, List.map]
    decide
  · intro hash
    rfl

/-- Witness of C1: the keys of the sample assertion ranged over in the order
`first_name`, `id`, `auth_date` give `auth_date=1700000000\nfirst_name=Ann\nid=42`. -/
theorem dataCheckString_canonical_witness :
    List.Perm ["first_name", "id", "auth_date"] (mapKeys (buildDataMap (annData ""))) ∧
    dataCheckStringOf ["first_name", "id", "auth_date"] (buildDataMap (annData ""))
      = "auth_date=1700000000\nfirst_name=Ann\nid=42" :=
  ⟨by decide,
   (dataCheckString_canonical (annData "") ["first_name", "id", "auth_date"] (by decide)).1.trans
     (by decide)⟩

/-- C2. Round-trip acceptance: for every non-empty bot token and every assertion whose
hash is the lowercase hex encoding of HMAC-SHA256 (key the SHA-256 of the token) of its
data-check string, `verifyTelegramAuth` returns true; and when moreover the difference
`now - auth_date` the handler computes is at most 86400, `ConnectorReceiver` returns a
populated record with a nil error. The difference is the 64-bit one of the program; for a
clock at or after the epoch it is the exact difference whenever that is at most 86400. -/
theorem roundTrip_accepted (rt : GoRuntime) (t : Connector) (hK : t.Config.BotToken ≠ "") :
    (∀ d : TelegramAuthData,
      d.Hash = hexEncodeToString
        (rt.hmacSha256 (rt.sha256Sum256 t.Config.BotToken) (dataCheckString rt d)) →
      verifyTelegramAuth rt t d = true) ∧
    (∀ (params : String → String) (now : Int),
      params "hash" = hexEncodeToString (rt.hmacSha256 (rt.sha256Sum256 t.Config.BotToken)
        (dataCheckString rt (assembleAuthData params))) →
      wrapInt64 (now - (assembleAuthData params).AuthDate) ≤ 86400 →
      (ConnectorReceiver rt t params now).2 = none ∧
        (ConnectorReceiver rt t params now).1 ≠ zeroUserInfo) ∧
    (∀ (params : String → String) (now : Int),
      params "hash" = hexEncodeToString (rt.hmacSha256 (rt.sha256Sum256 t.Config.BotToken)
        (dataCheckString rt (assembleAuthData params))) →
      0 ≤ now → now < 2 ^ 63 → now - (assembleAuthData params).AuthDate ≤ 86400 →
      (ConnectorReceiver rt t params now).2 = none ∧
        (ConnectorReceiver rt t params now).1 ≠ zeroUserInfo) := by
  have hv : ∀ d : TelegramAuthData,
      d.Hash = hexEncodeToString
        (rt.hmacSha256 (rt.sha256Sum256 t.Config.BotToken) (dataCheckString rt d)) →
      verifyTelegramAuth rt t d = true := by
    intro d hd
    have hd' : d.Hash = calculatedHash rt t.Config.BotToken d := hd
    rw [verifyTelegramAuth_eq_true_iff]
    exact ⟨hK, hd' ▸ calculatedHash_ne_empty rt _ d, hd'.symm⟩
  have hacc : ∀ (params : String → String) (now : Int),
      params "hash" = hexEncodeToString (rt.hmacSha256 (rt.sha256Sum256 t.Config.BotToken)
        (dataCheckString rt (assembleAuthData params))) →
      wrapInt64 (now - (assembleAuthData params).AuthDate) ≤ 86400 →
      (ConnectorReceiver rt t params now).2 = none ∧
        (ConnectorReceiver rt t params now).1 ≠ zeroUserInfo := by
    intro params now hh hf
    rw [ConnectorReceiver_accepted rt t params now (hv _ hh) hf]
    refine ⟨rfl, ?_⟩
    intro hz
    exact sprintD_ne_empty _ (congrArg ExternalLoginUserInfo.ExternalID hz)
  refine ⟨hv, hacc, ?_⟩
  intro params now hh h0 h1 hf
  refine hacc params now hh ?_
  have hr := lenientValue_range (params "auth_date")
  rw [← assembleAuthData_AuthDate] at hr
  rw [wrapInt64_of_range _ (by omega) (by omega)]
  exact hf

/-- Witness of C2: with the sample runtime and the token `secret`, the assertion of Ann
carrying its computed signature is accepted one hundred seconds after its date. -/
theorem roundTrip_accepted_witness :
    sampleConnector.Config.BotToken ≠ "" ∧
    verifyTelegramAuth sampleRuntime sampleConnector (annData annHash) = true ∧
    (ConnectorReceiver sampleRuntime sampleConnector
      (queryOf "42" "1700000000" "Ann" "" "" "" annHash) 1700000100).2 = none :=
  ⟨by decide,
   (roundTrip_accepted sampleRuntime sampleConnector (by decide)).1 (annData annHash) (by decide),
   ((roundTrip_accepted sampleRuntime sampleConnector (by decide)).2.1
      (queryOf "42" "1700000000" "Ann" "" "" "" annHash) 1700000100 (by decide) (by decide)).1⟩

/-- C3. Rejection on tamper: when `verifyTelegramAuth` accepts an assertion, the
assertion with the value of exactly one of `id`, `auth_date`, `first_name`, `last_name`,
`username`, `photo_url` changed and the hash kept has a different data-check string, and
is rejected, provided the hex HMAC of the two different data-check strings under the key
of the token differs. -/
theorem tampered_rejected (rt : GoRuntime) (t : Connector) (d1 d2 : TelegramAuthData)
    (hacc : verifyTelegramAuth rt t d1 = true) (hch : singleFieldChange d1 d2)
    (hmac : dataCheckString rt d1 ≠ dataCheckString rt d2 →
      hexEncodeToString
          (rt.hmacSha256 (rt.sha256Sum256 t.Config.BotToken) (dataCheckString rt d1)) ≠
        hexEncodeToString
          (rt.hmacSha256 (rt.sha256Sum256 t.Config.BotToken) (dataCheckString rt d2))) :
    d2.Hash = d1.Hash ∧ dataCheckString rt d1 ≠ dataCheckString rt d2 ∧
      verifyTelegramAuth rt t d2 = false := by
  have hhash : d2.Hash = d1.Hash := by
    rcases hch.2 with ⟨v, hv⟩ | ⟨v, hv⟩ | ⟨v, hv⟩ | ⟨v, hv⟩ | ⟨v, hv⟩ | ⟨v, hv⟩ <;> rw [hv]
  have hne : dataCheckString rt d1 ≠ dataCheckString rt d2 := by
    rw [dataCheckString_eq, dataCheckString_eq]
    exact canonical_changes d1 d2 hch
  refine ⟨hhash, hne, ?_⟩
  have h1 := (verifyTelegramAuth_eq_true_iff rt t d1).mp hacc
  cases hv2 : verifyTelegramAuth rt t d2 with
  | false => rfl
  | true =>
    have h2 := (verifyTelegramAuth_eq_true_iff rt t d2).mp hv2
    exact absurd (h1.2.2.trans (hhash.symm.trans h2.2.2.symm)) (hmac hne)

/-- Witness of C3: the accepted assertion of Ann with a username added is rejected. -/
theorem tampered_rejected_witness :
    verifyTelegramAuth sampleRuntime sampleConnector (annData annHash) = true ∧
    singleFieldChange (annData annHash) { annData annHash with Username := "ann" } ∧
    verifyTelegramAuth sampleRuntime sampleConnector
      { annData annHash with Username := "ann" } = false :=
  ⟨by decide, ⟨by decide, Or.inr (Or.inr (Or.inr (Or.inr (Or.inl ⟨"ann", rfl⟩))))⟩,
   (tampered_rejected sampleRuntime sampleConnector (annData annHash)
      { annData annHash with Username := "ann" } (by decide)
      ⟨by decide, Or.inr (Or.inr (Or.inr (Or.inr (Or.inl ⟨"ann", rfl⟩))))⟩
      (fun _ => by decide)).2.2⟩

/-- C4. Fail-closed on missing credential: with an empty bot token `verifyTelegramAuth`
returns false for every assertion, with an empty hash it returns false for every token,
and with an empty bot token `ConnectorReceiver` returns the zero record and the error
`telegram auth data verification failed` for every request. -/
theorem missing_credential_rejected (rt : GoRuntime) (t : Connector) (d : TelegramAuthData)
    (params : String → String) (now : Int) :
    verifyTelegramAuth rt { Config := { t.Config with BotToken := "" } } d = false ∧
    verifyTelegramAuth rt t { d with Hash := "" } = false ∧
    ConnectorReceiver rt { Config := { t.Config with BotToken := "" } } params now =
      (zeroUserInfo, some "telegram auth data verification failed") := by
  have h1 : ∀ d', verifyTelegramAuth rt { Config := { t.Config with BotToken := "" } } d' = false := by
    intro d'
    simp [verifyTelegramAuth]
  refine ⟨h1 d, ?_, ConnectorReceiver_rejected _ _ _ _ (h1 _)⟩
  simp [verifyTelegramAuth]

/-- C5. At the clock value 1700000000 a correctly signed assertion whose `auth_date`
parameter is `-9223372036854775808` is older than 86400 seconds by any exact count, yet
`ConnectorReceiver` accepts it: the 64-bit subtraction `now - auth_date` wraps around to a
negative number. -/
theorem stale_accepted_on_overflow (rt : GoRuntime) (t : Connector)
    (params : String → String) (hK : t.Config.BotToken ≠ "")
    (hdate : params "auth_date" = "-9223372036854775808")
    (hH : params "hash" = hexEncodeToString (rt.hmacSha256 (rt.sha256Sum256 t.Config.BotToken)
      (dataCheckString rt (assembleAuthData params)))) :
    (assembleAuthData params).AuthDate = -9223372036854775808 ∧
    (1700000000 : Int) - (assembleAuthData params).AuthDate > 86400 ∧
    (ConnectorReceiver rt t params 1700000000).2 = none := by
  have hd : (assembleAuthData params).AuthDate = -9223372036854775808 := by
    show (ParseInt (params "auth_date")).1 = _
    rw [hdate]
    decide
  have hv : verifyTelegramAuth rt t (assembleAuthData params) = true := by
    rw [verifyTelegramAuth_eq_true_iff]
    have hh : (assembleAuthData params).Hash
        = calculatedHash rt t.Config.BotToken (assembleAuthData params) := hH
    exact ⟨hK, hh ▸ calculatedHash_ne_empty rt _ _, hh.symm⟩
  refine ⟨hd, by rw [hd]; decide, ?_⟩
  rw [ConnectorReceiver_accepted rt t params 1700000000 hv (by rw [hd]; decide)]

/-- Witness of C5: the sample runtime accepts the signed assertion of Ann dated
`-9223372036854775808` at the clock value 1700000000. -/
theorem stale_accepted_on_overflow_witness :
    sampleConnector.Config.BotToken ≠ "" ∧
    (ConnectorReceiver sampleRuntime sampleConnector
      (queryOf "42" "-9223372036854775808" "Ann" "" "" ""
        "3333333333333333333333333333333333333333333333333333333333333333")
      1700000000).2 = none :=
  ⟨by decide,
   (stale_accepted_on_overflow sampleRuntime sampleConnector
      (queryOf "42" "-9223372036854775808" "Ann" "" "" ""
        "3333333333333333333333333333333333333333333333333333333333333333")
      (by decide) (by decide) (by decide)).2.2⟩

/-- C6 as stated fails: the assertion with an empty username and the photo URL
`X\nusername=Y` has a data-check string one of whose newline-separated lines begins with
`username=`. -/
theorem empty_username_line_present :
    (smuggledData "").Username = "" ∧
    "username=Y" ∈ linesOf (dataCheckString sampleRuntime (smuggledData "")) ∧
    beginsWith "username=" "username=Y" = true := by
  decide

/-- C6, amended. An optional field (`first_name`, `last_name`, `username`, `photo_url`)
whose value is empty contributes no pair to the list joined into the data-check string;
when none of the four values holds a newline, no newline-separated line of the string
begins with its name and `=`; and `id` and `auth_date` contribute a line for every
assertion, also when they are 0. -/
theorem empty_fields_excluded (rt : GoRuntime) (d : TelegramAuthData) :
    dataCheckString rt d = stringsJoin (dataCheckPairs rt d) "\n" ∧
    (∀ p ∈ dataCheckPairs rt d,
      (d.FirstName = "" → beginsWith "first_name=" p = false) ∧
      (d.LastName = "" → beginsWith "last_name=" p = false) ∧
      (d.Username = "" → beginsWith "username=" p = false) ∧
      (d.PhotoURL = "" → beginsWith "photo_url=" p = false)) ∧
    (newlineFree d.FirstName → newlineFree d.LastName → newlineFree d.Username →
      newlineFree d.PhotoURL →
      ∀ line ∈ linesOf (dataCheckString rt d),
        (d.FirstName = "" → beginsWith "first_name=" line = false) ∧
        (d.LastName = "" → beginsWith "last_name=" line = false) ∧
        (d.Username = "" → beginsWith "username=" line = false) ∧
        (d.PhotoURL = "" → beginsWith "photo_url=" line = false)) ∧
    ("id=" ++ toString d.ID) ∈ linesOf (dataCheckString rt d) ∧
    ("auth_date=" ++ toString d.AuthDate) ∈ linesOf (dataCheckString rt d) ∧
    (d.ID = 0 → "id=0" ∈ linesOf (dataCheckString rt d)) ∧
    (d.AuthDate = 0 → "auth_date=0" ∈ linesOf (dataCheckString rt d)) := by
  have hid : ("id=" ++ toString d.ID) ∈ linesOf (dataCheckString rt d) := by
    rw [dataCheckString_eq, ← sprintD_eq_toString]
    refine mem_linesOf_of_mem _ (canonicalPairs_ne_nil d) _ ?_ ?_
    · rw [canonicalPairs_eq]; simp
    · have := sprintD_newlineFree d.ID
      unfold newlineFree at *
      simpa [String.data_append] using this
  have hdate : ("auth_date=" ++ toString d.AuthDate) ∈ linesOf (dataCheckString rt d) := by
    rw [dataCheckString_eq, ← sprintD_eq_toString]
    refine mem_linesOf_of_mem _ (canonicalPairs_ne_nil d) _ ?_ ?_
    · rw [canonicalPairs_eq]; simp
    · have := sprintD_newlineFree d.AuthDate
      unfold newlineFree at *
      simpa [String.data_append] using this
  refine ⟨rfl, ?_, ?_, hid, hdate, ?_, ?_⟩
  · intro p hp
    rw [dataCheckPairs_eq] at hp
    exact canonicalPairs_exclude_empty d p hp
  · intro h1 h2 h3 h4 line hl
    rw [dataCheckString_eq, linesOf_canonical d h1 h2 h3 h4] at hl
    exact canonicalPairs_exclude_empty d line hl
  · intro h0
    rw [h0] at hid
    exact hid
  · intro h0
    rw [h0] at hdate
    exact hdate

/-- Witness of C6, amended: the assertion of Ann, whose username is empty and whose
values hold no newline, has the lines of its three pairs, none beginning with `username=`. -/
theorem empty_fields_excluded_witness :
    (annData "").Username = "" ∧
    ∀ line ∈ linesOf (dataCheckString sampleRuntime (annData "")),
      beginsWith "username=" line = false :=
  ⟨rfl, fun line hl =>
    ((empty_fields_excluded sampleRuntime (annData "")).2.2.1
      (by unfold newlineFree; decide) (by unfold newlineFree; decide)
      (by unfold newlineFree; decide) (by unfold newlineFree; decide) line hl).2.2.1 rfl⟩

/-- C7. Username fallback: for an assertion that passes the signature check and the
freshness check, `ConnectorReceiver` returns a nil error and a record whose `ExternalID`
is the id in base 10 and whose `Username` is the username of the assertion when that is
not empty and the `ExternalID` when it is empty; the returned `Username` is never empty. -/
theorem username_fallback (rt : GoRuntime) (t : Connector) (params : String → String)
    (now : Int) (hv : verifyTelegramAuth rt t (assembleAuthData params) = true)
    (hf : ¬ wrapInt64 (now - (assembleAuthData params).AuthDate) > 86400) :
    (ConnectorReceiver rt t params now).2 = none ∧
    (ConnectorReceiver rt t params now).1.ExternalID = toString (assembleAuthData params).ID ∧
    ((assembleAuthData params).Username ≠ "" →
      (ConnectorReceiver rt t params now).1.Username = (assembleAuthData params).Username) ∧
    ((assembleAuthData params).Username = "" →
      (ConnectorReceiver rt t params now).1.Username
        = (ConnectorReceiver rt t params now).1.ExternalID) ∧
    (ConnectorReceiver rt t params now).1.Username ≠ "" := by
  rw [ConnectorReceiver_accepted rt t params now hv (not_lt.mp hf)]
  refine ⟨rfl, sprintD_eq_toString _, ?_, ?_, ?_⟩
  · intro hu
    simp only [if_neg hu]
  · intro hu
    simp only [if_pos hu]
  · show (if (assembleAuthData params).Username = "" then _ else _) ≠ ""
    split_ifs with hu
    · exact sprintD_ne_empty _
    · exact hu

/-- Witness of C7: the accepted assertion of Ann, which has no username, is mapped to a
record whose `Username` is its `ExternalID`, the text `42`. -/
theorem username_fallback_witness :
    verifyTelegramAuth sampleRuntime sampleConnector
      (assembleAuthData (queryOf "42" "1700000000" "Ann" "" "" "" annHash)) = true ∧
    (ConnectorReceiver sampleRuntime sampleConnector
      (queryOf "42" "1700000000" "Ann" "" "" "" annHash) 1700000100).1.Username = "42" :=
  ⟨by decide,
   ((username_fallback sampleRuntime sampleConnector
      (queryOf "42" "1700000000" "Ann" "" "" "" annHash) 1700000100
      (by decide) (by decide)).2.2.2.1 (by decide)).trans (by decide)⟩

/-- C8 as stated fails: the parameter `9223372036854775808` is not a valid literal of a
signed 64-bit integer, and the `ID` assembled from it is 9223372036854775807, not 0; the
same holds for the non-numeric parameter `99999999999999999999x`, whose digits overflow
before the letter is read. -/
theorem out_of_range_id_saturates :
    validInt64Literal "9223372036854775808" = false ∧
    (assembleAuthData (queryOf "9223372036854775808" "1700000000" "Ann" "" "" "" "")).ID
      = 9223372036854775807 ∧
    isDecimalLiteral "99999999999999999999x" = false ∧
    (assembleAuthData (queryOf "99999999999999999999x" "1700000000" "Ann" "" "" "" "")).ID
      = 9223372036854775807 := by
  decide

/-- C8, amended. The `ID` and `AuthDate` assembled by `ConnectorReceiver` are the values
`strconv.ParseInt` returns with the error dropped: 0 when nothing follows the optional
sign, and 0 when a character that is not a decimal digit follows digits denoting less
than 2^64; a string that is not a valid literal of a signed 64-bit integer gives 0 or one
of the bounds 2^63 - 1 and -2^63, and a base-10 literal outside the 64-bit signed range
gives the bound of its sign, not 0. -/
theorem malformed_integers_lenient (params : String → String) :
    (assembleAuthData params).ID = lenientValue (params "id") ∧
    (assembleAuthData params).AuthDate = lenientValue (params "auth_date") ∧
    (∀ s : String, literalBody s = [] → lenientValue s = 0) ∧
    (∀ s : String, (literalBody s).takeWhile isDigitChar ≠ literalBody s →
      digitsValueFrom 0 ((literalBody s).takeWhile isDigitChar) < 2 ^ 64 → lenientValue s = 0) ∧
    (∀ s : String, validInt64Literal s = false →
      lenientValue s = 0 ∨ lenientValue s = 2 ^ 63 - 1 ∨ lenientValue s = -(2 : Int) ^ 63) ∧
    (∀ s : String, isDecimalLiteral s = true → validInt64Literal s = false →
      lenientValue s = if literalNegative s then -(2 : Int) ^ 63 else 2 ^ 63 - 1) := by
  have hsat : ∀ s : String, isDecimalLiteral s = true → validInt64Literal s = false →
      lenientValue s = if literalNegative s then -(2 : Int) ^ 63 else 2 ^ 63 - 1 := by
    intro s hdec hinv
    have hd := hdec
    simp only [isDecimalLiteral, Bool.and_eq_true, decide_eq_true_eq] at hd
    have htw := takeWhile_eq_self_of_all _ hd.2
    simp only [validInt64Literal, hdec, Bool.true_and, Bool.and_eq_false_iff,
      decide_eq_false_iff_not, literalValue] at hinv
    unfold lenientValue
    simp only [htw, hd.1, if_false, ne_eq, not_true_eq_false]
    cases hneg : literalNegative s <;> simp only [hneg, if_true, if_false] at hinv ⊢ <;>
      split_ifs <;> first | rfl | omega
  refine ⟨assembleAuthData_ID params, assembleAuthData_AuthDate params, ?_, ?_, ?_, hsat⟩
  · intro s hb
    simp [lenientValue, hb]
  · intro s hl hv
    unfold lenientValue
    simp only [hl, ne_eq, not_false_eq_true, if_true]
    split_ifs <;> first | rfl | omega
  · intro s hinv
    by_cases hb : literalBody s = []
    · exact Or.inl (by simp [lenientValue, hb])
    · by_cases hl : (literalBody s).takeWhile isDigitChar = literalBody s
      · have hdec : isDecimalLiteral s = true := by
          simp only [isDecimalLiteral, Bool.and_eq_true, decide_eq_true_eq]
          exact ⟨hb, all_of_takeWhile_eq_self _ hl⟩
        rw [hsat s hdec hinv]
        cases literalNegative s <;> simp
      · unfold lenientValue
        simp only [hb, hl, ne_eq, not_false_eq_true, if_true, if_false]
        split_ifs <;> simp

/-- Witness of C8, amended: the parameter `12x` gives the `ID` 0, and the parameter
`-9223372036854775809` gives the `AuthDate` -2^63. -/
theorem malformed_integers_lenient_witness :
    (assembleAuthData (queryOf "12x" "-9223372036854775809" "" "" "" "" "")).ID = 0 ∧
    (assembleAuthData (queryOf "12x" "-9223372036854775809" "" "" "" "" "")).AuthDate
      = -(2 : Int) ^ 63 :=
  ⟨(malformed_integers_lenient (queryOf "12x" "-9223372036854775809" "" "" "" "" "")).1.trans
      ((malformed_integers_lenient (queryOf "12x" "-9223372036854775809" "" "" "" "" "")).2.2.2.1
        "12x" (by decide) (by decide)),
   (malformed_integers_lenient (queryOf "12x" "-9223372036854775809" "" "" "" "" "")).2.1.trans
      (((malformed_integers_lenient (queryOf "12x" "-9223372036854775809" "" "" "" "" "")).2.2.2.2.2
        "-9223372036854775809" (by decide) (by decide)).trans (by decide))⟩

/-- C9. Canonicalization is injective on newline-free input: when none of `first_name`,
`last_name`, `username`, `photo_url` of two assertions holds a newline and the data-check
strings built by `verifyTelegramAuth` are equal, the assertions agree on `id`,
`auth_date`, `first_name`, `last_name`, `username` and `photo_url`. -/
theorem dataCheckString_injective (rt1 rt2 : GoRuntime) (d1 d2 : TelegramAuthData)
    (f1 : newlineFree d1.FirstName) (l1 : newlineFree d1.LastName)
    (u1 : newlineFree d1.Username) (p1 : newlineFree d1.PhotoURL)
    (f2 : newlineFree d2.FirstName) (l2 : newlineFree d2.LastName)
    (u2 : newlineFree d2.Username) (p2 : newlineFree d2.PhotoURL)
    (h : dataCheckString rt1 d1 = dataCheckString rt2 d2) :
    d1.ID = d2.ID ∧ d1.AuthDate = d2.AuthDate ∧ d1.FirstName = d2.FirstName ∧
      d1.LastName = d2.LastName ∧ d1.Username = d2.Username ∧ d1.PhotoURL = d2.PhotoURL := by
  rw [dataCheckString_eq, dataCheckString_eq] at h
  have hl := congrArg linesOf h
  rw [linesOf_canonical d1 f1 l1 u1 p1, linesOf_canonical d2 f2 l2 u2 p2] at hl
  exact canonicalPairs_injective d1 d2 hl

/-- Witness of C9: two assertions of Ann that differ in the hash alone have the same
data-check string. -/
theorem dataCheckString_injective_witness :
    dataCheckString sampleRuntime (annData "") = dataCheckString sampleRuntime (annData annHash) ∧
    (annData "").FirstName = (annData annHash).FirstName :=
  ⟨by decide,
   (dataCheckString_injective sampleRuntime sampleRuntime (annData "") (annData annHash)
      (by unfold newlineFree; decide) (by unfold newlineFree; decide)
      (by unfold newlineFree; decide) (by unfold newlineFree; decide)
      (by unfold newlineFree; decide) (by unfold newlineFree; decide)
      (by unfold newlineFree; decide) (by unfold newlineFree; decide) (by decide)).2.2.1⟩

/-- C10. Canonicalization is ambiguous when values may hold newlines: the assertion with
photo URL `X\nusername=Y` and no username and the assertion with photo URL `X` and
username `Y`, of the same id, auth_date and hash, have the same data-check string, so
`verifyTelegramAuth` decides alike on both for every bot token, while `ConnectorReceiver`,
returning the same error for both, maps them when it accepts to records with different
`Username` and `Avatar`; and some runtime, token and clock make it accept. -/
theorem newline_ambiguity :
    ∃ d1 d2 : TelegramAuthData,
      d1.ID = d2.ID ∧ d1.AuthDate = d2.AuthDate ∧ d1.Hash = d2.Hash ∧
      d1.PhotoURL = "X\nusername=Y" ∧ d1.Username = "" ∧
      d2.PhotoURL = "X" ∧ d2.Username = "Y" ∧
      (∀ rt1 rt2 : GoRuntime, dataCheckString rt1 d1 = dataCheckString rt2 d2) ∧
      (∀ (rt : GoRuntime) (t : Connector),
        verifyTelegramAuth rt t d1 = verifyTelegramAuth rt t d2) ∧
      ∃ q1 q2 : String → String,
        assembleAuthData q1 = d1 ∧ assembleAuthData q2 = d2 ∧
        (∀ (rt : GoRuntime) (t : Connector) (now : Int),
          (ConnectorReceiver rt t q1 now).2 = (ConnectorReceiver rt t q2 now).2 ∧
          ((ConnectorReceiver rt t q1 now).2 = none →
            (ConnectorReceiver rt t q1 now).1.Username
                ≠ (ConnectorReceiver rt t q2 now).1.Username ∧
            (ConnectorReceiver rt t q1 now).1.Avatar
                ≠ (ConnectorReceiver rt t q2 now).1.Avatar)) ∧
        (ConnectorReceiver sampleRuntime sampleConnector q1 1700000100).2 = none := by
  have hs : ∀ rt1 rt2 : GoRuntime, dataCheckString rt1 (smuggledData smuggledHash)
      = dataCheckString rt2 (plainData smuggledHash) := by
    intro rt1 rt2
    rw [dataCheckString_eq, dataCheckString_eq]
    decide
  have hv : ∀ (rt : GoRuntime) (t : Connector),
      verifyTelegramAuth rt t (smuggledData smuggledHash)
      = verifyTelegramAuth rt t (plainData smuggledHash) := by
    intro rt t
    unfold verifyTelegramAuth calculatedHash
    rw [hs rt rt]
    rfl
  refine ⟨smuggledData smuggledHash,
    plainData smuggledHash,
    rfl, rfl, rfl, rfl, rfl, rfl, rfl, hs, hv,
    queryOf "42" "1700000000" "" "" "" "X\nusername=Y" smuggledHash,
    queryOf "42" "1700000000" "" "" "Y" "X" smuggledHash,
    by decide, by decide, ?_, by decide⟩
  intro rt t now
  have e1 : assembleAuthData (queryOf "42" "1700000000" "" "" "" "X\nusername=Y" smuggledHash)
      = smuggledData smuggledHash := by
    decide
  have e2 : assembleAuthData (queryOf "42" "1700000000" "" "" "Y" "X" smuggledHash)
      = plainData smuggledHash := by
    decide
  cases hacc : verifyTelegramAuth rt t (smuggledData smuggledHash) with
  | false =>
    have h2 := hacc
    rw [hv rt t] at h2
    rw [ConnectorReceiver_rejected rt t _ now (by rw [e1]; exact hacc),
      ConnectorReceiver_rejected rt t _ now (by rw [e2]; exact h2)]
    exact ⟨rfl, fun h => absurd h (by decide)⟩
  | true =>
    have h2 := hacc
    rw [hv rt t] at h2
    by_cases hf : wrapInt64 (now - 1700000000) ≤ 86400
    · rw [ConnectorReceiver_accepted rt t _ now (by rw [e1]; exact hacc) (by rw [e1]; exact hf),
        ConnectorReceiver_accepted rt t _ now (by rw [e2]; exact h2) (by rw [e2]; exact hf)]
      refine ⟨rfl, fun _ => ?_⟩
      rw [e1, e2]
      constructor
      · show sprintD 42 ≠ "Y"
        decide
      · show "X\nusername=Y" ≠ "X"
        decide
    · rw [ConnectorReceiver_stale rt t _ now (by rw [e1]; exact hacc)
          (by rw [e1]; exact not_le.mp hf),
        ConnectorReceiver_stale rt t _ now (by rw [e2]; exact h2)
          (by rw [e2]; exact not_le.mp hf)]
      exact ⟨rfl, fun h => absurd h (by decide)⟩

end Telegram
